import Mathlib

/-!
Verification development for the PynPoint background-subtraction and
flux/position modules (`BackgroundSubtraction.py`, `FluxAndPosition.py`,
`SkyScienceDataModules.py`).

Images are modelled as flat lists of rational pixel values; a stack of
frames is a `List Image`.  All pointwise numpy arithmetic on equally
shaped arrays becomes `List.zipWith`.  Python loops that append to an
output port become list concatenation, and loops that mutate an array in
place become folds over `List.set`.  Exceptions (`ValueError`) are
modelled with `Except String` or `Option`.
-/

namespace PynPoint

/-- A 2-D frame, flattened to a list of rational pixel values. -/
abbrev Image := List ℚ

/-- Pointwise addition of two images (numpy `+` on equal shapes). -/
def imAdd (a b : Image) : Image := List.zipWith (· + ·) a b

/-- Pointwise subtraction of two images (numpy `-` on equal shapes). -/
def imSub (a b : Image) : Image := List.zipWith (· - ·) a b

/-- Scalar multiplication of an image. -/
def imSMul (c : ℚ) (a : Image) : Image := a.map (fun v => c * v)

/-- Sum of a list of equally shaped images (numpy sum along axis 0).
An empty list yields the empty image. -/
def imListSum : List Image → Image
  | [] => []
  | [a] => a
  | a :: rest => imAdd a (imListSum rest)

/-- `np.mean(stack, axis=0)`: pointwise mean of a list of images.  For an
empty list numpy would produce NaNs with a warning; here division by zero
in `ℚ` produces the junk value `0` instead (no claim depends on it). -/
def imMean (l : List Image) : Image :=
  (imListSum l).map (fun v => v / (l.length : ℚ))

/-- Python slice `l[a:b]` (step 1) with Python's index semantics:
negative indices count from the end, then both bounds are clamped to
`[0, len]`, and the result is empty when `start ≥ stop`. -/
def pyslice {α : Type} (l : List α) (a b : ℤ) : List α :=
  let n : ℤ := l.length
  let a' : ℤ := if a < 0 then max 0 (n + a) else min a n
  let b' : ℤ := if b < 0 then max 0 (n + b) else min b n
  ((l.drop a'.toNat).take (b' - a').toNat)

/-!
## SimpleBackgroundSubtractionModule (BackgroundSubtraction.py lines 259-293)

`run` subtracts frame `(i + star_pos_shift) % number_of_frames` from frame
`i`.  With a fresh `image_out_tag` the result frames are appended to an
initially empty output; with `image_out_tag == image_in_tag` the result is
written back into the same stack one frame at a time (`self.m_image_out_port[i]
= tmp_res`), so later frames read the already overwritten data.
-/

/-- Fresh-output configuration of `SimpleBackgroundSubtractionModule.run`:
output frame `i` is `frames[i] - frames[(i + shift) % n]`, appended in
order to an initially empty output tag. -/
def simpleBGFresh (frames : List Image) (shift : Nat) : List Image :=
  (List.range frames.length).map
    (fun i => imSub (frames.getD i []) (frames.getD ((i + shift) % frames.length) []))

/-- In-place configuration (`image_out_tag == image_in_tag`) of
`SimpleBackgroundSubtractionModule.run`: the loop writes
`stack[i] := stack[i] - stack[(i + shift) % n]` for `i = 0, …, n-1`, where
both reads see the *current* (possibly already overwritten) stack. -/
def simpleBGInPlace (frames : List Image) (shift : Nat) : List Image :=
  (List.range frames.length).foldl
    (fun st i => st.set i (imSub (st.getD i []) (st.getD ((i + shift) % frames.length) [])))
    frames

/-- The in-place update step of `simpleBGInPlace`. -/
def simpleStep (n shift : Nat) (st : List Image) (i : Nat) : List Image :=
  st.set i (imSub (st.getD i []) (st.getD ((i + shift) % n) []))

theorem simpleBGInPlace_eq_foldl (frames : List Image) (shift : Nat) :
    simpleBGInPlace frames shift =
      (List.range frames.length).foldl (simpleStep frames.length shift) frames := rfl

theorem simpleStep_length (n shift : Nat) (st : List Image) (i : Nat) :
    (simpleStep n shift st i).length = st.length := by
  simp [simpleStep]

/-- Fold invariant for the in-place loop: positions below the processed
range keep their values, and processed positions satisfy the subtraction
recurrence against the final stack. -/
theorem simpleFold_spec (frames : List Image) (shift : Nat) :
    ∀ (m k : Nat) (st : List Image), st.length = frames.length →
    k + m = frames.length →
    (∀ j, k ≤ j → st.getD j [] = frames.getD j []) →
    (∀ j, j < k →
        (List.foldl (simpleStep frames.length shift) st (List.range' k m)).getD j [] =
          st.getD j []) ∧
    (∀ j, k ≤ j → j < frames.length →
        (List.foldl (simpleStep frames.length shift) st (List.range' k m)).getD j [] =
          imSub (frames.getD j [])
            (if (j + shift) % frames.length < j then
              (List.foldl (simpleStep frames.length shift) st (List.range' k m)).getD
                ((j + shift) % frames.length) []
            else frames.getD ((j + shift) % frames.length) [])) := by
  intro m
  induction m with
  | zero =>
    intro k st _ hk _
    constructor
    · intro j _; rfl
    · intro j hkj hjn; omega
  | succ m ih =>
    intro k st hlen hk hst
    have hkn : k < frames.length := by omega
    have hrange : List.range' k (m + 1) = k :: List.range' (k + 1) m := by
      simp [List.range'_succ]
    set st' := simpleStep frames.length shift st k with hst'
    have hlen' : st'.length = frames.length := by
      rw [hst', simpleStep_length]; exact hlen
    have hst'_ne : ∀ j, j ≠ k → st'.getD j [] = st.getD j [] := by
      intro j hj
      rw [hst']
      simp [simpleStep, List.getD, List.getElem?_set_ne (Ne.symm hj)]
    have hst'_eq : st'.getD k [] =
        imSub (st.getD k []) (st.getD ((k + shift) % frames.length) []) := by
      rw [hst']
      simp [simpleStep, List.getD, List.getElem?_set_self, hlen.symm ▸ hkn]
    have hst'_frames : ∀ j, k + 1 ≤ j → st'.getD j [] = frames.getD j [] := by
      intro j hj
      rw [hst'_ne j (by omega)]
      exact hst j (by omega)
    obtain ⟨ha, hb⟩ := ih (k + 1) st' hlen' (by omega) hst'_frames
    rw [hrange]
    simp only [List.foldl_cons]
    rw [← hst']
    refine ⟨?_, ?_⟩
    · intro j hj
      rw [ha j (by omega), hst'_ne j (by omega)]
    · intro j hkj hjn
      rcases Nat.eq_or_lt_of_le hkj with heq | hlt
      · subst heq
        rw [ha k (by omega), hst'_eq, hst k le_rfl]
        by_cases hb2 : (k + shift) % frames.length < k
        · simp only [if_pos hb2]
          rw [ha _ (by omega), hst'_ne _ (by omega)]
        · simp only [if_neg hb2]
          rw [hst _ (by omega)]
      · exact hb j hlt hjn

/--
C5 counterexample: with a 2-frame stack `[[0], [1]]` and `shift = 1`, the
in-place configuration writes output frame 1 as `[2]` (it subtracts the
already overwritten frame 0), while the claim — frame `i` minus input
frame `(i + shift) % N`, which is what the fresh-output configuration
computes — requires `[1]`.
-/
theorem simpleBG_inplace_counterexample :
    simpleBGInPlace [[(0 : ℚ)], [1]] 1 = [[-1], [2]] ∧
    simpleBGFresh [[(0 : ℚ)], [1]] 1 = [[-1], [1]] ∧
    simpleBGInPlace [[(0 : ℚ)], [1]] 1 ≠ simpleBGFresh [[(0 : ℚ)], [1]] 1 := by
  refine ⟨?_, ?_, ?_⟩
  · simp [simpleBGInPlace, imSub, List.range_succ]; norm_num
  · simp [simpleBGFresh, imSub, List.range_succ]
  · have h1 : simpleBGInPlace [[(0 : ℚ)], [1]] 1 = [[-1], [2]] := by
      simp [simpleBGInPlace, imSub, List.range_succ]; norm_num
    have h2 : simpleBGFresh [[(0 : ℚ)], [1]] 1 = [[-1], [1]] := by
      simp [simpleBGFresh, imSub, List.range_succ]
    rw [h1, h2]
    intro h
    have := congrArg (fun l => (List.getD (List.getD l 1 []) 0 (0 : ℚ))) h
    norm_num at this

/--
C5 (amended): for every frame index `i < N`, the fresh-output
configuration writes frame `i` as input `i` minus input `(i + shift) % N`;
the in-place configuration writes the same whenever the background index
`(i + shift) % N` is at least `i` (not yet overwritten), and otherwise
subtracts the already background-subtracted output frame at that index.
-/
theorem simpleBG_amended (frames : List Image) (shift i : Nat)
    (h : i < frames.length) :
    (simpleBGFresh frames shift).getD i [] =
      imSub (frames.getD i []) (frames.getD ((i + shift) % frames.length) []) ∧
    (simpleBGInPlace frames shift).getD i [] =
      imSub (frames.getD i [])
        (if (i + shift) % frames.length < i then
          (simpleBGInPlace frames shift).getD ((i + shift) % frames.length) []
        else frames.getD ((i + shift) % frames.length) []) := by
  constructor
  · simp [simpleBGFresh, List.getD, List.getElem?_map, List.getElem?_range, h]
  · have hspec := (simpleFold_spec frames shift frames.length 0 frames rfl
      (by omega) (fun j _ => rfl)).2 i (Nat.zero_le i) h
    rw [simpleBGInPlace_eq_foldl, List.range_eq_range']
    exact hspec

/-- Witness for `simpleBG_amended` at a concrete input. -/
theorem simpleBG_amended_witness :
    (simpleBGFresh [[(5 : ℚ)], [7], [9]] 1).getD 1 [] =
      imSub ([[(5 : ℚ)], [7], [9]].getD 1 []) ([[(5 : ℚ)], [7], [9]].getD 2 []) ∧
    (simpleBGInPlace [[(5 : ℚ)], [7], [9]] 1).getD 1 [] =
      imSub ([[(5 : ℚ)], [7], [9]].getD 1 [])
        (if (1 + 1) % 3 < 1 then
          (simpleBGInPlace [[(5 : ℚ)], [7], [9]] 1).getD ((1 + 1) % 3) []
        else [[(5 : ℚ)], [7], [9]].getD ((1 + 1) % 3) []) := by
  have := simpleBG_amended [[(5 : ℚ)], [7], [9]] 1 1 (by norm_num)
  simpa using this

/-!
## PCABackgroundPreparationModule: star/background cube flags
(BackgroundSubtraction.py lines 372-378)

```
bg_frames = np.ones(nframes.shape[0], dtype=bool)
for i in range(self.m_first_star_cube, np.size(nframes),
               self.m_cubes_per_position*self.m_dither_positions):
    bg_frames[i:i+self.m_cubes_per_position] = False
```
-/

/-- Python `range(start, stop, step)` for `step > 0`. -/
def pyrange (start stop step : Nat) : List Nat :=
  List.range' start (((stop - start) + (step - 1)) / step) step

/-- The array positions set to `False` by the flagging loop: for each loop
start `s` the slice `[s, s+C)` (the slice assignment `bg_frames[i:i+C]`,
clamping beyond the array end being handled by `List.set`). -/
def starPositions (n D C F : Nat) : List Nat :=
  (pyrange F n (C * D)).flatMap (fun s => (List.range C).map (fun j => s + j))

/-- The `bg_frames` boolean array: `True` (background) everywhere except
the positions covered by the star slices. -/
def bgFlags (n D C F : Nat) : List Bool :=
  (starPositions n D C F).foldl (fun fl p => fl.set p false) (List.replicate n true)

/-- `bg_indices = np.nonzero(bg_frames)[0]`. -/
def bgIndices (n D C F : Nat) : List Nat :=
  (List.range n).filter (fun i => (bgFlags n D C F).getD i true)

theorem foldl_set_false_getD (ps : List Nat) :
    ∀ (fl : List Bool) (i : Nat), i < fl.length →
      (ps.foldl (fun f p => f.set p false) fl).getD i true =
        (if i ∈ ps then false else fl.getD i true) := by
  induction ps with
  | nil => intro fl i _; simp
  | cons p rest ih =>
    intro fl i hi
    simp only [List.foldl_cons]
    rw [ih (fl.set p false) i (by simpa using hi)]
    by_cases hmem : i ∈ rest
    · simp [hmem]
    · by_cases hip : i = p
      · subst hip
        simp [hmem, List.getD, List.getElem?_set_self hi]
      · have hgd : (fl.set p false).getD i true = fl.getD i true := by
          simp [List.getD, List.getElem?_set_ne (Ne.symm hip)]
        rw [if_neg hmem, if_neg (by simp [hmem, hip] : ¬ i ∈ p :: rest)]
        exact hgd

theorem mem_starPositions {n D C F i : Nat} (hC : 0 < C) (hD : 0 < D)
    (hin : i < n) :
    i ∈ starPositions n D C F ↔ F ≤ i ∧ (i - F) % (C * D) < C := by
  have hCD : 0 < C * D := Nat.mul_pos hC hD
  simp only [starPositions, List.mem_flatMap, List.mem_map, List.mem_range,
    pyrange, List.mem_range']
  constructor
  · rintro ⟨s, ⟨q, _, rfl⟩, ⟨j, hj, rfl⟩⟩
    refine ⟨by omega, ?_⟩
    have : F + C * D * q + j - F = C * D * q + j := by omega
    rw [this, Nat.add_comm (C * D * q) j, Nat.add_mul_mod_self_left]
    rwa [Nat.mod_eq_of_lt (lt_of_lt_of_le hj (Nat.le_mul_of_pos_right C hD))]
  · rintro ⟨hF, hmod⟩
    refine ⟨F + C * D * ((i - F) / (C * D)), ⟨(i - F) / (C * D), ?_, rfl⟩,
      ⟨(i - F) % (C * D), hmod, ?_⟩⟩
    · rw [Nat.lt_iff_add_one_le, Nat.le_div_iff_mul_le hCD, Nat.add_mul,
        Nat.one_mul]
      have h1 : (i - F) / (C * D) * (C * D) ≤ i - F := Nat.div_mul_le_self _ _
      omega
    · have := Nat.div_add_mod (i - F) (C * D)
      omega

/--
C3 counterexample: with `dither_positions = 2`, `cubes_per_position = 1`,
`first_star_cube = 2` and three cubes, cube 0 is flagged BACKGROUND by the
code, although the claim's formula `(i - F) mod (C*D) < C` (with the
nonnegative remainder convention of Python) classifies it as SOURCE:
`(0 - 2) mod 2 = 0 < 1`.
-/
theorem bgFlags_counterexample :
    (bgFlags 3 2 1 2).getD 0 true = true ∧ ((0 : ℤ) - 2) % ((1 : ℤ) * 2) < 1 := by
  constructor
  · rfl
  · decide

/--
C3 (amended): cube `i` (for `i` a valid cube index and positive dither
parameters) is flagged SOURCE (`bg_frames[i] = False`) exactly when
`F ≤ i` and `(i - F) mod (C*D) < C`; cubes before the first star cube are
always BACKGROUND.
-/
theorem bgFlags_spec {n D C F i : Nat} (hC : 0 < C) (hD : 0 < D)
    (hin : i < n) :
    (bgFlags n D C F).getD i true = false ↔ F ≤ i ∧ (i - F) % (C * D) < C := by
  rw [bgFlags, foldl_set_false_getD _ _ i (by simpa using hin)]
  rw [← mem_starPositions hC hD hin]
  by_cases hmem : i ∈ starPositions n D C F
  · simp [hmem]
  · simp [hmem]

/-- Witness for `bgFlags_spec` at `n = 6`, `D = 2`, `C = 1`, `F = 0`,
`i = 2`: cube 2 is SOURCE since `(2 - 0) % 2 = 0 < 1`. -/
theorem bgFlags_spec_witness :
    (0 < 1 ∧ 0 < 2 ∧ 2 < 6) ∧
    ((bgFlags 6 2 1 0).getD 2 true = false ↔ 0 ≤ 2 ∧ (2 - 0) % (1 * 2) < 1) := by
  exact ⟨⟨by decide, by decide, by decide⟩,
    bgFlags_spec (by decide) (by decide) (by decide)⟩

/-!
## PCABackgroundPreparationModule.run (BackgroundSubtraction.py lines 346-487)

The run loop iterates over the cubes described by the non-static `NFRAMES`
attribute.  Background cubes have their own cube mean subtracted and are
appended to the background stream; star cubes get a background estimate
(the `bg_prev`/`bg_next` logic of lines 420-440) subtracted from every
frame and are appended to the star stream.  `bg_prev`/`bg_next` are plain
Python variables updated only inside the star branch, so a lookup that
finds nothing leaves the previous (possibly never assigned) value; a read
of a never-assigned variable is a `NameError`, modelled as `none`
propagating to a failed run.
-/

/-- Result of `PCABackgroundPreparationModule.run`: the star and
background output streams with their re-accumulated `NEW_PARA` and
`NFRAMES` attributes. -/
structure PrepOut where
  star : List Image
  bg : List Image
  starParang : List ℚ
  bgParang : List ℚ
  starNFrames : List Nat
  bgNFrames : List Nat

/-- Per-cube mean images (`cube_mean[i,] = np.mean(port[count:count+item], axis=0)`). -/
def cubeMeansAux (frames : List Image) : List Nat → Nat → List Image
  | [], _ => []
  | item :: rest, count =>
    imMean ((frames.drop count).take item) :: cubeMeansAux frames rest (count + item)

/-- All cube means of a stack partitioned by `nframes`. -/
def cubeMeans (frames : List Image) (nframes : List Nat) : List Image :=
  cubeMeansAux frames nframes 0

/-- Update of the Python variable `bg_prev` at a star cube (lines
422-425): reassigned to the mean of the nearest previous background cube
when one exists, otherwise left at its previous value. -/
def codeBgPrev (means : List Image) (bgIdx : List Nat) (i : Nat)
    (bgPrev : Option Image) : Option Image :=
  match (bgIdx.filter (fun j => decide (j < i))).max? with
  | some jp => some (means.getD jp [])
  | none => bgPrev

/-- Update of the Python variable `bg_next` at a star cube (lines
427-430). -/
def codeBgNext (means : List Image) (bgIdx : List Nat) (i : Nat)
    (bgNext : Option Image) : Option Image :=
  match (bgIdx.filter (fun j => decide (i < j))).min? with
  | some jn => some (means.getD jn [])
  | none => bgNext

/-- The background selection of lines 432-440: `bg_next` if the cube is
the first of the sequence, `bg_prev` if it is the last, otherwise the
average of `bg_prev` and `bg_next`.  Reading a never-assigned variable
(`none`) is a `NameError`, hence `none`. -/
def codeEst (nCubes i : Nat) (bgPrev bgNext : Option Image) : Option Image :=
  if i = 0 then bgNext
  else if i = nCubes - 1 then bgPrev
  else
    match bgPrev, bgNext with
    | some p, some nx => some ((imAdd p nx).map (fun v => v / 2))
    | _, _ => none

/-- The separation loop of `PCABackgroundPreparationModule.run`
(lines 392-458), translated cube by cube.  Arguments after the cube list:
current cube index `i`, current frame offset `count`, and the current
values of the Python variables `bg_prev` / `bg_next` (`none` = never
assigned; reading `none` where the code reads the variable models the
`NameError` and makes the whole run fail). -/
def prepGo (frames : List Image) (parang : List ℚ) (means : List Image)
    (flags : List Bool) (bgIdx : List Nat) (nCubes : Nat) :
    List Nat → Nat → Nat → Option Image → Option Image → Option PrepOut
  | [], _, _, _, _ => some ⟨[], [], [], [], [], []⟩
  | item :: rest, i, count, bgPrev, bgNext =>
    let imTmp := (frames.drop count).take item
    let parTmp := (parang.drop count).take item
    if flags.getD i true then
      (prepGo frames parang means flags bgIdx nCubes rest (i + 1) (count + item)
          bgPrev bgNext).map
        (fun o =>
          { o with
            bg := (imTmp.map (fun f => imSub f (means.getD i []))) ++ o.bg,
            bgParang := parTmp ++ o.bgParang,
            bgNFrames := item :: o.bgNFrames })
    else
      match codeEst nCubes i (codeBgPrev means bgIdx i bgPrev)
          (codeBgNext means bgIdx i bgNext) with
      | none => none
      | some est =>
        (prepGo frames parang means flags bgIdx nCubes rest (i + 1) (count + item)
            (codeBgPrev means bgIdx i bgPrev) (codeBgNext means bgIdx i bgNext)).map
          (fun o =>
            { o with
              star := (imTmp.map (fun f => imSub f est)) ++ o.star,
              starParang := parTmp ++ o.starParang,
              starNFrames := item :: o.starNFrames })

/-- `PCABackgroundPreparationModule.run` with `dither = (D, C, F)`. -/
def prepRun (frames : List Image) (parang : List ℚ) (nframes : List Nat)
    (D C F : Nat) : Option PrepOut :=
  prepGo frames parang (cubeMeans frames nframes) (bgFlags nframes.length D C F)
    (bgIndices nframes.length D C F) nframes.length nframes 0 0 none none

/-- Mean image of the nearest BACKGROUND cube before cube `i`, if any. -/
def nearestBgBefore (means : List Image) (bgIdx : List Nat) (i : Nat) :
    Option Image :=
  ((bgIdx.filter (fun j => decide (j < i))).max?).map (fun j => means.getD j [])

/-- Mean image of the nearest BACKGROUND cube after cube `i`, if any. -/
def nearestBgAfter (means : List Image) (bgIdx : List Nat) (i : Nat) :
    Option Image :=
  ((bgIdx.filter (fun j => decide (i < j))).min?).map (fun j => means.getD j [])

/-- The background estimate for a SOURCE cube exactly as claim C1 words
it: the previous BACKGROUND cube's mean for the first cube, the next
BACKGROUND cube's mean for the last cube, otherwise the average of the
nearest-previous and nearest-next BACKGROUND cube means. -/
def claimEst (means : List Image) (bgIdx : List Nat) (nCubes i : Nat) :
    Option Image :=
  if i = 0 then nearestBgBefore means bgIdx i
  else if i = nCubes - 1 then nearestBgAfter means bgIdx i
  else
    match nearestBgBefore means bgIdx i, nearestBgAfter means bgIdx i with
    | some p, some nx => some ((imAdd p nx).map (fun v => v / 2))
    | _, _ => none

/-- The amended background estimate: the *next* BACKGROUND cube's mean
for the first cube, the *previous* one's mean for the last cube,
otherwise the average of the nearest-previous and nearest-next means. -/
def amendedEst (means : List Image) (bgIdx : List Nat) (nCubes i : Nat) :
    Option Image :=
  if i = 0 then nearestBgAfter means bgIdx i
  else if i = nCubes - 1 then nearestBgBefore means bgIdx i
  else
    match nearestBgBefore means bgIdx i, nearestBgAfter means bgIdx i with
    | some p, some nx => some ((imAdd p nx).map (fun v => v / 2))
    | _, _ => none

/-- Reference (spec-side) preparation run: background cubes have their own
mean subtracted, star cube `i` has the estimate `est i` subtracted from
every one of its frames; both streams are written in input cube order. -/
def specPrep (est : Nat → Option Image) (frames : List Image) (parang : List ℚ)
    (means : List Image) (flags : List Bool) :
    List Nat → Nat → Nat → Option PrepOut
  | [], _, _ => some ⟨[], [], [], [], [], []⟩
  | item :: rest, i, count =>
    let imTmp := (frames.drop count).take item
    let parTmp := (parang.drop count).take item
    if flags.getD i true then
      (specPrep est frames parang means flags rest (i + 1) (count + item)).map
        (fun o =>
          { o with
            bg := (imTmp.map (fun f => imSub f (means.getD i []))) ++ o.bg,
            bgParang := parTmp ++ o.bgParang,
            bgNFrames := item :: o.bgNFrames })
    else
      match est i with
      | none => none
      | some e =>
        (specPrep est frames parang means flags rest (i + 1) (count + item)).map
          (fun o =>
            { o with
              star := (imTmp.map (fun f => imSub f e)) ++ o.star,
              starParang := parTmp ++ o.starParang,
              starNFrames := item :: o.starNFrames })

/-- Spec-side preparation run for a given estimate rule. -/
def specPrepRun (est : Nat → Option Image) (frames : List Image)
    (parang : List ℚ) (nframes : List Nat) (D C F : Nat) : Option PrepOut :=
  specPrep est frames parang (cubeMeans frames nframes)
    (bgFlags nframes.length D C F) nframes 0 0

theorem codeEst_eq_amendedEst (means : List Image) (bgIdx : List Nat)
    (nCubes i : Nat) (bgPrev bgNext : Option Image)
    (hprev : bgIdx.filter (fun j => decide (j < i)) = [] → bgPrev = none)
    (hnext0 : i = 0 → bgNext = none)
    (hmid : 0 < i → i + 1 < nCubes →
      bgIdx.filter (fun j => decide (i < j)) ≠ [])
    (hin : i < nCubes) :
    codeEst nCubes i (codeBgPrev means bgIdx i bgPrev)
        (codeBgNext means bgIdx i bgNext) =
      amendedEst means bgIdx nCubes i := by
  unfold codeEst amendedEst codeBgPrev codeBgNext nearestBgBefore nearestBgAfter
  by_cases h0 : i = 0
  · subst h0
    simp only [if_pos rfl]
    cases hmin : (bgIdx.filter (fun j => decide (0 < j))).min? with
    | none =>
      rw [List.min?_eq_none_iff] at hmin
      simp [hmin, hnext0 rfl]
    | some jn => simp
  · simp only [if_neg h0]
    by_cases hlast : i = nCubes - 1
    · simp only [if_pos hlast]
      cases hmax : (bgIdx.filter (fun j => decide (j < i))).max? with
      | none =>
        rw [List.max?_eq_none_iff] at hmax
        simp [hmax, hprev hmax]
      | some jp => simp
    · simp only [if_neg hlast]
      have hnonempty : bgIdx.filter (fun j => decide (i < j)) ≠ [] :=
        hmid (by omega) (by omega)
      cases hmin : (bgIdx.filter (fun j => decide (i < j))).min? with
      | none => exact absurd (List.min?_eq_none_iff.mp hmin) hnonempty
      | some jn =>
        cases hmax : (bgIdx.filter (fun j => decide (j < i))).max? with
        | none =>
          rw [List.max?_eq_none_iff] at hmax
          simp [hmax, hprev hmax]
        | some jp => simp

theorem prepGo_eq_specPrep (frames : List Image) (parang : List ℚ)
    (means : List Image) (flags : List Bool) (bgIdx : List Nat) (nCubes : Nat)
    (hnext : ∀ i1, i1 < nCubes → flags.getD i1 true = false → 0 < i1 →
      i1 + 1 < nCubes → bgIdx.filter (fun j => decide (i1 < j)) ≠ []) :
    ∀ (rest : List Nat) (i count : Nat) (bgPrev bgNext : Option Image),
      i + rest.length = nCubes →
      (bgIdx.filter (fun j => decide (j < i)) = [] → bgPrev = none) →
      (i = 0 → bgNext = none) →
      prepGo frames parang means flags bgIdx nCubes rest i count bgPrev bgNext =
        specPrep (amendedEst means bgIdx nCubes) frames parang means flags
          rest i count := by
  intro rest
  induction rest with
  | nil => intro i count bgPrev bgNext _ _ _; rfl
  | cons item rest ih =>
    intro i count bgPrev bgNext hidx hprev hnext0
    have hfewer : bgIdx.filter (fun j => decide (j < i + 1)) = [] →
        bgIdx.filter (fun j => decide (j < i)) = [] := by
      intro h
      rw [List.filter_eq_nil_iff] at h ⊢
      intro j hj hlt
      exact h j hj (by simp at hlt ⊢; omega)
    by_cases hflag : flags.getD i true
    · rw [prepGo, specPrep]
      simp only [hflag, if_true]
      rw [ih (i + 1) (count + item) bgPrev bgNext (by simp at hidx ⊢; omega)
        (fun h => hprev (hfewer h)) (by omega)]
    · have hin : i < nCubes := by simp at hidx; omega
      have hest := codeEst_eq_amendedEst means bgIdx nCubes i bgPrev bgNext
        hprev hnext0 (fun h1 h2 => hnext i hin (by simpa using hflag) h1 h2) hin
      rw [prepGo, specPrep]
      simp only [hflag, if_false, Bool.false_eq_true]
      rw [hest]
      cases hcase : amendedEst means bgIdx nCubes i with
      | none => rfl
      | some est =>
        have hprev' : bgIdx.filter (fun j => decide (j < i + 1)) = [] →
            codeBgPrev means bgIdx i bgPrev = none := by
          intro h
          unfold codeBgPrev
          have h1 := hfewer h
          rw [h1]
          simpa using hprev h1
        rw [ih (i + 1) (count + item) (codeBgPrev means bgIdx i bgPrev)
          (codeBgNext means bgIdx i bgNext) (by simp at hidx ⊢; omega)
          hprev' (by omega)]

/--
C1 counterexample: with `dither = (3, 1, 0)`, four single-frame cubes
`[[10]], [[20]], [[30]], [[40]]` (cubes 0 and 3 are SOURCE, cubes 1 and 2
BACKGROUND), the code completes: cube 0 uses the *next* background cube's
mean.  The claim's rule — the *previous* background cube's mean for the
first cube — is not even defined there (no background cube precedes cube
0), so the claim-side run fails and differs from the code.
-/
theorem prep_claim_counterexample :
    (prepRun [[10], [20], [30], [40]] [0, 0, 0, 0] [1, 1, 1, 1] 3 1 0).isSome
        = true ∧
    specPrepRun (claimEst (cubeMeans [[10], [20], [30], [40]] [1, 1, 1, 1])
        (bgIndices 4 3 1 0) 4) [[10], [20], [30], [40]] [0, 0, 0, 0]
        [1, 1, 1, 1] 3 1 0 = none ∧
    prepRun [[10], [20], [30], [40]] [0, 0, 0, 0] [1, 1, 1, 1] 3 1 0 ≠
      specPrepRun (claimEst (cubeMeans [[10], [20], [30], [40]] [1, 1, 1, 1])
        (bgIndices 4 3 1 0) 4) [[10], [20], [30], [40]] [0, 0, 0, 0]
        [1, 1, 1, 1] 3 1 0 := by
  refine ⟨rfl, rfl, ?_⟩
  intro h
  have h2 : (prepRun [[10], [20], [30], [40]] [0, 0, 0, 0] [1, 1, 1, 1]
      3 1 0).isSome = true := rfl
  rw [h] at h2
  have h3 : specPrepRun (claimEst (cubeMeans [[10], [20], [30], [40]]
      [1, 1, 1, 1]) (bgIndices 4 3 1 0) 4) [[10], [20], [30], [40]]
      [0, 0, 0, 0] [1, 1, 1, 1] 3 1 0 = none := rfl
  rw [h3] at h2
  simp at h2

/--
C1 (amended): provided every SOURCE cube strictly between the first and
the last cube has a BACKGROUND cube somewhere after it, the preparation
run equals the spec-side run with the amended estimate rule: the *next*
BACKGROUND cube's mean for the first cube of the sequence, the *previous*
BACKGROUND cube's mean for the last cube, and the average of the
nearest-previous and nearest-next BACKGROUND cube means otherwise; the
estimate is subtracted from every frame of a SOURCE cube before the cube
is written to the star stream, and each BACKGROUND cube has its own cube
mean subtracted before being written to the background stream.
-/
theorem prepRun_amended (frames : List Image) (parang : List ℚ)
    (nframes : List Nat) (D C F : Nat)
    (hnext : ∀ i1, i1 < nframes.length →
      (bgFlags nframes.length D C F).getD i1 true = false → 0 < i1 →
      i1 + 1 < nframes.length →
      (bgIndices nframes.length D C F).filter (fun j => decide (i1 < j)) ≠ []) :
    prepRun frames parang nframes D C F =
      specPrepRun (amendedEst (cubeMeans frames nframes)
        (bgIndices nframes.length D C F) nframes.length)
        frames parang nframes D C F := by
  exact prepGo_eq_specPrep frames parang (cubeMeans frames nframes)
    (bgFlags nframes.length D C F) (bgIndices nframes.length D C F)
    nframes.length hnext nframes 0 0 none none (by simp)
    (fun _ => rfl) (fun _ => rfl)

/-- Witness for `prepRun_amended`: five single-frame cubes with
`dither = (2, 1, 1)` (SOURCE cubes 1 and 3, BACKGROUND cubes 0, 2, 4);
the side condition holds since every middle SOURCE cube is followed by a
BACKGROUND cube. -/
theorem prepRun_amended_witness :
    (∀ i1, i1 < ([1, 1, 1, 1, 1] : List Nat).length →
      (bgFlags ([1, 1, 1, 1, 1] : List Nat).length 2 1 1).getD i1 true = false →
      0 < i1 → i1 + 1 < ([1, 1, 1, 1, 1] : List Nat).length →
      (bgIndices ([1, 1, 1, 1, 1] : List Nat).length 2 1 1).filter
        (fun j => decide (i1 < j)) ≠ []) ∧
    prepRun [[1], [2], [3], [4], [5]] [0, 0, 0, 0, 0] [1, 1, 1, 1, 1] 2 1 1 =
      specPrepRun (amendedEst
        (cubeMeans [[1], [2], [3], [4], [5]] [1, 1, 1, 1, 1])
        (bgIndices ([1, 1, 1, 1, 1] : List Nat).length 2 1 1)
        ([1, 1, 1, 1, 1] : List Nat).length)
        [[1], [2], [3], [4], [5]] [0, 0, 0, 0, 0] [1, 1, 1, 1, 1] 2 1 1 := by
  constructor
  · decide
  · exact prepRun_amended [[1], [2], [3], [4], [5]] [0, 0, 0, 0, 0]
      [1, 1, 1, 1, 1] 2 1 1 (by decide)

theorem sum_map_snd_filter_partition (l : List (Nat × Nat))
    (p : Nat × Nat → Bool) :
    (((l.filter (fun x => !(p x))).map Prod.snd).sum : Nat) +
        ((l.filter p).map Prod.snd).sum = (l.map Prod.snd).sum := by
  induction l with
  | nil => simp
  | cons x xs ih =>
    by_cases hx : p x
    · simp [hx, List.sum_cons]
      omega
    · simp [hx, List.sum_cons]
      omega

theorem prepGo_partition (frames : List Image) (parang : List ℚ)
    (means : List Image) (flags : List Bool) (bgIdx : List Nat)
    (nCubes : Nat) :
    ∀ (rest : List Nat) (i count : Nat) (bgPrev bgNext : Option Image)
      (o : PrepOut),
      count + rest.sum ≤ frames.length →
      prepGo frames parang means flags bgIdx nCubes rest i count bgPrev bgNext
        = some o →
      o.starNFrames = ((List.enumFrom i rest).filter
          (fun q => !(flags.getD q.1 true))).map Prod.snd ∧
      o.bgNFrames = ((List.enumFrom i rest).filter
          (fun q => flags.getD q.1 true)).map Prod.snd ∧
      o.star.length = o.starNFrames.sum ∧
      o.bg.length = o.bgNFrames.sum := by
  intro rest
  induction rest with
  | nil =>
    intro i count bgPrev bgNext o _ hrun
    rw [prepGo] at hrun
    cases hrun
    simp [List.enumFrom]
  | cons item rest ih =>
    intro i count bgPrev bgNext o hle hrun
    have hitem : ((frames.drop count).take item).length = item := by
      rw [List.length_take, List.length_drop]
      simp only [List.sum_cons] at hle
      omega
    rw [prepGo] at hrun
    by_cases hflag : flags.getD i true
    · have hflag2 : flags[i]?.getD true = true := by simpa [List.getD] using hflag
      simp only [hflag, if_true] at hrun
      rw [Option.map_eq_some'] at hrun
      obtain ⟨o', hrec, rfl⟩ := hrun
      obtain ⟨h1, h2, h3, h4⟩ := ih (i + 1) (count + item) bgPrev bgNext o'
        (by simp only [List.sum_cons] at hle; omega) hrec
      refine ⟨?_, ?_, ?_, ?_⟩
      · simpa [List.enumFrom, List.filter_cons, hflag2] using h1
      · simpa [List.enumFrom, List.filter_cons, hflag2] using h2
      · simpa using h3
      · simp [List.enumFrom, List.filter_cons, hflag2, h4]
        simp only [List.sum_cons] at hle
        omega
    · have hflag2 : flags[i]?.getD true = false := by simpa [List.getD] using hflag
      simp only [hflag, if_false, Bool.false_eq_true] at hrun
      cases hest : codeEst nCubes i (codeBgPrev means bgIdx i bgPrev)
          (codeBgNext means bgIdx i bgNext) with
      | none => rw [hest] at hrun; cases hrun
      | some est =>
        rw [hest] at hrun
        rw [Option.map_eq_some'] at hrun
        obtain ⟨o', hrec, rfl⟩ := hrun
        obtain ⟨h1, h2, h3, h4⟩ := ih (i + 1) (count + item)
          (codeBgPrev means bgIdx i bgPrev) (codeBgNext means bgIdx i bgNext)
          o' (by simp only [List.sum_cons] at hle; omega) hrec
        refine ⟨?_, ?_, ?_, ?_⟩
        · simpa [List.enumFrom, List.filter_cons, hflag2] using h1
        · simpa [List.enumFrom, List.filter_cons, hflag2] using h2
        · simp [List.enumFrom, List.filter_cons, hflag2, h3]
          simp only [List.sum_cons] at hle
          omega
        · simpa using h4

/--
C10: whenever `PCABackgroundPreparationModule.run` completes on an input
whose frame count matches the sum of its `NFRAMES` attribute, every input
cube is routed to exactly one of the two output streams in input order:
the star and background `NFRAMES` attributes are the complementary
flag-filtered subsequences of the input `NFRAMES`, each output stream
holds exactly the frames its `NFRAMES` sum describes, and the star plus
background frame counts (and `NFRAMES` sums) equal the input frame count
(and `NFRAMES` sum).
-/
theorem prep_partition (frames : List Image) (parang : List ℚ)
    (nframes : List Nat) (D C F : Nat) (res : PrepOut)
    (hlen : frames.length = nframes.sum)
    (hrun : prepRun frames parang nframes D C F = some res) :
    res.starNFrames = ((nframes.enum).filter
        (fun q => !((bgFlags nframes.length D C F).getD q.1 true))).map
          Prod.snd ∧
    res.bgNFrames = ((nframes.enum).filter
        (fun q => (bgFlags nframes.length D C F).getD q.1 true)).map
          Prod.snd ∧
    res.star.length = res.starNFrames.sum ∧
    res.bg.length = res.bgNFrames.sum ∧
    res.star.length + res.bg.length = frames.length ∧
    res.starNFrames.sum + res.bgNFrames.sum = nframes.sum := by
  obtain ⟨h1, h2, h3, h4⟩ := prepGo_partition frames parang
    (cubeMeans frames nframes) (bgFlags nframes.length D C F)
    (bgIndices nframes.length D C F) nframes.length nframes 0 0 none none res
    (by omega) hrun
  have hsum : res.starNFrames.sum + res.bgNFrames.sum = nframes.sum := by
    have hpart := sum_map_snd_filter_partition nframes.enum
      (fun q => (bgFlags nframes.length D C F).getD q.1 true)
    rw [List.enum_map_snd] at hpart
    rw [h1, h2, ← List.enum_eq_enumFrom]
    exact hpart
  refine ⟨by rw [h1, List.enum_eq_enumFrom], by rw [h2, List.enum_eq_enumFrom],
    h3, h4, ?_, hsum⟩
  rw [h3, h4, hlen]
  exact hsum

/-- Witness for `prep_partition` on a two-cube input (`dither = (2,1,1)`,
cube 0 BACKGROUND, cube 1 SOURCE). -/
theorem prep_partition_witness :
    ([[(1 : ℚ)], [2]] : List Image).length = ([1, 1] : List Nat).sum ∧
    prepRun [[(1 : ℚ)], [2]] [0, 0] [1, 1] 2 1 1 =
      some ⟨[[1]], [[0]], [0], [0], [1], [1]⟩ ∧
    ((⟨[[1]], [[0]], [0], [0], [1], [1]⟩ : PrepOut).star.length +
        (⟨[[1]], [[0]], [0], [0], [1], [1]⟩ : PrepOut).bg.length =
      ([[(1 : ℚ)], [2]] : List Image).length) := by
  have hrun : prepRun [[(1 : ℚ)], [2]] [0, 0] [1, 1] 2 1 1 =
      some ⟨[[1]], [[0]], [0], [0], [1], [1]⟩ := by
    simp [prepRun, prepGo, cubeMeans, cubeMeansAux, imMean, imListSum, imSub,
      imAdd, bgFlags, bgIndices, starPositions, pyrange, codeBgPrev, codeBgNext,
      codeEst, List.range_succ, List.filter, List.foldl, List.set, List.max?,
      List.min?]
    norm_num
  refine ⟨rfl, hrun, ?_⟩
  exact (prep_partition [[(1 : ℚ)], [2]] [0, 0] [1, 1] 2 1 1
    ⟨[[1]], [[0]], [0], [0], [1], [1]⟩ rfl hrun).2.2.2.2.1

/-!
## NoddingBackgroundModule.calc_sky_frame
(BackgroundSubtraction.py lines 1055-1092; the nested
`search_for_next_sky` / `search_for_previous_sky` scans, identical to
SkyScienceDataModules.py lines 126-158)

The time-stamp list holds SKY entries (with an index into the sky input
port) and SCIENCE entries.  `calc_sky_frame(i)` first raises a
`ValueError` when no SKY entry exists, then resolves the sky frame for
the SCIENCE entry at position `i` by directional scan with fallback.
-/

/-- A time stamp entry: a SKY cube (with its index into the sky port) or
a SCIENCE cube (whose science-port slice is irrelevant to the lookup). -/
inductive TSEntry where
  | SKY (idx : Nat)
  | SCIENCE
deriving DecidableEq

/-- `x.m_sky_or_science == "SKY"`. -/
def isSkyEntry : TSEntry → Bool
  | TSEntry.SKY _ => true
  | TSEntry.SCIENCE => false

/-- Body of the scan loops: the sky frame of the first SKY entry of the
given sequence (`self.m_sky_in_port[time_stamps[i].m_index]`). -/
def scanSky (skyFrames : List Image) : List TSEntry → Option Image
  | [] => none
  | TSEntry.SKY k :: _ => some (skyFrames.getD k [])
  | TSEntry.SCIENCE :: rest => scanSky skyFrames rest

/-- `search_for_next_sky`: forward scan `for i in range(idx, len)`,
falling back to the backward scan when nothing is found.  (The code's
further mutual recursion is unreachable: `calc_sky_frame` has already
checked that at least one SKY entry exists.) -/
def searchForNextSky (skyFrames : List Image) (ts : List TSEntry)
    (idx : Nat) : Option Image :=
  match scanSky skyFrames (ts.drop idx) with
  | some img => some img
  | none => scanSky skyFrames ((ts.take idx).reverse)

/-- `search_for_previous_sky`: backward scan `for i in reversed(range(0,
idx))`, falling back to the forward scan when nothing is found. -/
def searchForPreviousSky (skyFrames : List Image) (ts : List TSEntry)
    (idx : Nat) : Option Image :=
  match scanSky skyFrames ((ts.take idx).reverse) with
  | some img => some img
  | none => scanSky skyFrames (ts.drop idx)

/-- The `mode` argument of the module (validated at construction). -/
inductive SkyMode where
  | next
  | previous
  | both
deriving DecidableEq

/-- `NoddingBackgroundModule.calc_sky_frame`: `none` models the
`ValueError` raised when the time-stamp list has no SKY entry. -/
def calcSkyFrame (mode : SkyMode) (skyFrames : List Image)
    (ts : List TSEntry) (idx : Nat) : Option Image :=
  if ts.any isSkyEntry then
    match mode with
    | SkyMode.next => searchForNextSky skyFrames ts idx
    | SkyMode.previous => searchForPreviousSky skyFrames ts idx
    | SkyMode.both =>
      match searchForPreviousSky skyFrames ts idx,
          searchForNextSky skyFrames ts idx with
      | some p, some nx => some ((imAdd p nx).map (fun v => v / 2))
      | _, _ => none
  else none

/-- Whether the time-stamp entry at position `j` is a SKY entry (entries
beyond the end count as non-SKY). -/
def skyAtB (ts : List TSEntry) (j : Nat) : Bool :=
  isSkyEntry (ts.getD j TSEntry.SCIENCE)

/-- The sky image referenced by the entry at position `j`, when that
entry is a SKY entry. -/
def skyImageAtPos (skyFrames : List Image) (ts : List TSEntry) (j : Nat) :
    Option Image :=
  match ts.getD j TSEntry.SCIENCE with
  | TSEntry.SKY k => some (skyFrames.getD k [])
  | TSEntry.SCIENCE => none

/-- Position `j` holds the first SKY entry at or after position `idx`. -/
def IsFirstSkyAtOrAfter (ts : List TSEntry) (idx j : Nat) : Prop :=
  idx ≤ j ∧ j < ts.length ∧ skyAtB ts j = true ∧
    ∀ j', idx ≤ j' → j' < j → skyAtB ts j' = false

/-- Position `j` holds the nearest SKY entry before position `idx`. -/
def IsNearestSkyBefore (ts : List TSEntry) (idx j : Nat) : Prop :=
  j < idx ∧ skyAtB ts j = true ∧
    ∀ j', j < j' → j' < idx → skyAtB ts j' = false

/-- The claim's description of the NEXT-direction resolution: the first
SKY frame at or after the position, falling back to the nearest previous
SKY frame when no later one exists. -/
def NextResolvesTo (skyFrames : List Image) (ts : List TSEntry)
    (idx : Nat) (img : Image) : Prop :=
  (∃ j, IsFirstSkyAtOrAfter ts idx j ∧
      skyImageAtPos skyFrames ts j = some img) ∨
  ((∀ j, idx ≤ j → j < ts.length → skyAtB ts j = false) ∧
    ∃ j, IsNearestSkyBefore ts idx j ∧
      skyImageAtPos skyFrames ts j = some img)

/-- The claim's description of the PREVIOUS-direction resolution: the
nearest SKY frame before the position, falling back to the first SKY
frame at or after it when none exists before. -/
def PrevResolvesTo (skyFrames : List Image) (ts : List TSEntry)
    (idx : Nat) (img : Image) : Prop :=
  (∃ j, IsNearestSkyBefore ts idx j ∧
      skyImageAtPos skyFrames ts j = some img) ∨
  ((∀ j, j < idx → skyAtB ts j = false) ∧
    ∃ j, IsFirstSkyAtOrAfter ts idx j ∧
      skyImageAtPos skyFrames ts j = some img)

theorem scanSky_eq_none_iff (skyFrames : List Image) :
    ∀ l : List TSEntry, scanSky skyFrames l = none ↔
      ∀ e ∈ l, isSkyEntry e = false := by
  intro l
  induction l with
  | nil => simp [scanSky]
  | cons e rest ih =>
    cases e with
    | SKY k => simp [scanSky, isSkyEntry]
    | SCIENCE => simp [scanSky, isSkyEntry, ih]

theorem scanSky_eq_some_iff (skyFrames : List Image) :
    ∀ (l : List TSEntry) (img : Image), scanSky skyFrames l = some img ↔
      ∃ n k, l[n]? = some (TSEntry.SKY k) ∧ img = skyFrames.getD k [] ∧
        ∀ m, m < n → isSkyEntry (l.getD m TSEntry.SCIENCE) = false := by
  intro l
  induction l with
  | nil => simp [scanSky]
  | cons e rest ih =>
    intro img
    cases e with
    | SKY k0 =>
      simp only [scanSky, Option.some_inj]
      constructor
      · rintro rfl
        exact ⟨0, k0, by simp, rfl, by omega⟩
      · rintro ⟨n, k, hget, rfl, hbefore⟩
        cases n with
        | zero =>
          simp only [List.getElem?_cons_zero, Option.some_inj] at hget
          cases hget
          rfl
        | succ n =>
          have := hbefore 0 (Nat.succ_pos n)
          simp [List.getD, isSkyEntry] at this
    | SCIENCE =>
      simp only [scanSky]
      rw [ih img]
      constructor
      · rintro ⟨n, k, hget, rfl, hbefore⟩
        refine ⟨n + 1, k, by simpa using hget, rfl, ?_⟩
        intro m hm
        cases m with
        | zero => simp [List.getD, isSkyEntry]
        | succ m =>
          have := hbefore m (by omega)
          simpa [List.getD] using this
      · rintro ⟨n, k, hget, rfl, hbefore⟩
        cases n with
        | zero => simp at hget
        | succ n =>
          refine ⟨n, k, by simpa using hget, rfl, ?_⟩
          intro m hm
          have := hbefore (m + 1) (by omega)
          simpa [List.getD] using this

theorem scanSky_drop_none_iff (skyFrames : List Image) (ts : List TSEntry)
    (idx : Nat) :
    scanSky skyFrames (ts.drop idx) = none ↔
      ∀ j, idx ≤ j → j < ts.length → skyAtB ts j = false := by
  rw [scanSky_eq_none_iff]
  constructor
  · intro h j hij hjl
    have hget : (ts.drop idx)[j - idx]? = some ts[j] := by
      rw [List.getElem?_drop]
      have : idx + (j - idx) = j := by omega
      rw [this]
      exact List.getElem?_eq_some.mpr ⟨hjl, rfl⟩
    have hmem : ts[j] ∈ ts.drop idx := by
      rw [List.getElem?_eq_some] at hget
      obtain ⟨h1, h2⟩ := hget
      exact h2 ▸ List.getElem_mem h1
    have := h _ hmem
    rw [skyAtB]
    have hgd : ts.getD j TSEntry.SCIENCE = ts[j] :=
      List.getD_eq_getElem ts TSEntry.SCIENCE hjl
    rw [hgd]
    exact this
  · intro h e hmem
    obtain ⟨n, hn, rfl⟩ := List.getElem_of_mem hmem
    have hlen : idx + n < ts.length := by
      have := List.length_drop idx ts
      omega
    have e1 : (ts.drop idx)[n]? = some ((ts.drop idx)[n]) :=
      List.getElem?_eq_some.mpr ⟨hn, rfl⟩
    have e3 : ts[idx + n]? = some ((ts.drop idx)[n]) := by
      rw [← List.getElem?_drop]
      exact e1
    have h3 := h (idx + n) (by omega) hlen
    rw [skyAtB, List.getD_eq_getElem?_getD, e3] at h3
    simpa using h3

theorem scanSky_drop_some_iff (skyFrames : List Image) (ts : List TSEntry)
    (idx : Nat) (img : Image) :
    scanSky skyFrames (ts.drop idx) = some img ↔
      ∃ j, IsFirstSkyAtOrAfter ts idx j ∧
        skyImageAtPos skyFrames ts j = some img := by
  rw [scanSky_eq_some_iff]
  constructor
  · rintro ⟨n, k, hget, rfl, hbefore⟩
    rw [List.getElem?_drop] at hget
    have hlt : idx + n < ts.length := (List.getElem?_eq_some.mp hget).1
    have hval : ts.getD (idx + n) TSEntry.SCIENCE = TSEntry.SKY k := by
      rw [List.getD_eq_getElem ts TSEntry.SCIENCE hlt]
      exact (List.getElem?_eq_some.mp hget).2
    refine ⟨idx + n, ⟨by omega, hlt, ?_, ?_⟩, ?_⟩
    · rw [skyAtB, hval]; rfl
    · intro j' hij' hj'
      have hm := hbefore (j' - idx) (by omega)
      rw [skyAtB]
      have : (ts.drop idx).getD (j' - idx) TSEntry.SCIENCE =
          ts.getD j' TSEntry.SCIENCE := by
        rw [List.getD_eq_getElem?_getD, List.getD_eq_getElem?_getD,
          List.getElem?_drop]
        have : idx + (j' - idx) = j' := by omega
        rw [this]
      rw [← this]
      exact hm
    · rw [skyImageAtPos, hval]
  · rintro ⟨j, ⟨hij, hjl, hsky, hbefore⟩, himg⟩
    rw [skyImageAtPos] at himg
    rw [skyAtB] at hsky
    cases hval : ts.getD j TSEntry.SCIENCE with
    | SCIENCE => rw [hval] at hsky; simp [isSkyEntry] at hsky
    | SKY k =>
      rw [hval] at himg
      simp only [Option.some_inj] at himg
      refine ⟨j - idx, k, ?_, himg.symm, ?_⟩
      · rw [List.getElem?_drop]
        have heq : idx + (j - idx) = j := by omega
        rw [heq]
        rw [List.getElem?_eq_some]
        refine ⟨hjl, ?_⟩
        rw [← List.getD_eq_getElem ts TSEntry.SCIENCE hjl]
        exact hval
      · intro m hm
        have := hbefore (idx + m) (by omega) (by omega)
        rw [skyAtB] at this
        rw [List.getD_eq_getElem?_getD, List.getElem?_drop]
        rw [List.getD_eq_getElem?_getD] at this
        exact this

theorem skyAtB_of_ge_length {ts : List TSEntry} {j : Nat}
    (h : ts.length ≤ j) : skyAtB ts j = false := by
  rw [skyAtB, List.getD_eq_getElem?_getD, List.getElem?_eq_none h]
  rfl

theorem lt_length_of_skyAtB {ts : List TSEntry} {j : Nat}
    (h : skyAtB ts j = true) : j < ts.length := by
  by_contra hge
  rw [skyAtB_of_ge_length (by omega)] at h
  cases h

theorem scanSky_revtake_none_iff (skyFrames : List Image)
    (ts : List TSEntry) (idx : Nat) :
    scanSky skyFrames ((ts.take idx).reverse) = none ↔
      ∀ j, j < idx → skyAtB ts j = false := by
  rw [scanSky_eq_none_iff]
  constructor
  · intro h j hj
    by_cases hjl : j < ts.length
    · have hget : (ts.take idx)[j]? = some ts[j] := by
        rw [List.getElem?_take, if_pos hj]
        exact List.getElem?_eq_some.mpr ⟨hjl, rfl⟩
      have hmem : ts[j] ∈ (ts.take idx).reverse := by
        rw [List.mem_reverse]
        obtain ⟨h1, h2⟩ := List.getElem?_eq_some.mp hget
        exact h2 ▸ List.getElem_mem h1
      have := h _ hmem
      rw [skyAtB, List.getD_eq_getElem?_getD,
        List.getElem?_eq_some.mpr ⟨hjl, rfl⟩]
      exact this
    · exact skyAtB_of_ge_length (by omega)
  · intro h e hmem
    rw [List.mem_reverse] at hmem
    obtain ⟨n, hn, rfl⟩ := List.getElem_of_mem hmem
    have hlen : (ts.take idx).length = min idx ts.length := by
      simp [List.length_take]
    have hnlt : n < idx := by omega
    have hnlen : n < ts.length := by omega
    have e1 : (ts.take idx)[n]? = some ((ts.take idx)[n]) :=
      List.getElem?_eq_some.mpr ⟨hn, rfl⟩
    have e3 : ts[n]? = some ((ts.take idx)[n]) := by
      have e2 : (ts.take idx)[n]? = ts[n]? := by
        rw [List.getElem?_take, if_pos hnlt]
      rw [← e2]
      exact e1
    have h3 := h n hnlt
    rw [skyAtB, List.getD_eq_getElem?_getD, e3] at h3
    simpa using h3

theorem scanSky_revtake_some_iff (skyFrames : List Image)
    (ts : List TSEntry) (idx : Nat) (img : Image) :
    scanSky skyFrames ((ts.take idx).reverse) = some img ↔
      ∃ j, IsNearestSkyBefore ts idx j ∧
        skyImageAtPos skyFrames ts j = some img := by
  have hL : ((ts.take idx).reverse).length = min idx ts.length := by
    simp [List.length_take]
  have hLtake : (ts.take idx).length = min idx ts.length := by
    simp [List.length_take]
  rw [scanSky_eq_some_iff]
  constructor
  · rintro ⟨n, k, hget, rfl, hbefore⟩
    have hn : n < min idx ts.length := by
      have := (List.getElem?_eq_some.mp hget).1
      omega
    set j := min idx ts.length - 1 - n with hj
    have hrev : ((ts.take idx).reverse)[n]? = (ts.take idx)[j]? := by
      rw [List.getElem?_reverse (by omega)]
      rw [hLtake]
    have htsj : ts[j]? = some (TSEntry.SKY k) := by
      rw [hrev] at hget
      rw [List.getElem?_take, if_pos (by omega)] at hget
      exact hget
    have hjlen : j < ts.length := (List.getElem?_eq_some.mp htsj).1
    have hskyj : skyAtB ts j = true := by
      rw [skyAtB, List.getD_eq_getElem?_getD, htsj]
      rfl
    refine ⟨j, ⟨by omega, hskyj, ?_⟩, ?_⟩
    · intro j' hjj' hj'
      by_cases hj'l : j' < ts.length
      · have hj'L : j' < min idx ts.length := by omega
        have hm : min idx ts.length - 1 - j' < n := by omega
        have := hbefore _ hm
        rw [List.getD_eq_getElem?_getD,
          List.getElem?_reverse (by omega), hLtake] at this
        have hjj : min idx ts.length - 1 - (min idx ts.length - 1 - j') = j' := by
          omega
        rw [hjj, List.getElem?_take, if_pos (by omega)] at this
        rw [skyAtB, List.getD_eq_getElem?_getD]
        exact this
      · exact skyAtB_of_ge_length (by omega)
    · simp [skyImageAtPos, List.getD_eq_getElem?_getD, htsj]
  · rintro ⟨j, ⟨hjidx, hskyj, hnear⟩, himg⟩
    have hjlen : j < ts.length := lt_length_of_skyAtB hskyj
    obtain ⟨k, hk⟩ : ∃ k, ts.getD j TSEntry.SCIENCE = TSEntry.SKY k := by
      rw [skyAtB] at hskyj
      cases hval : ts.getD j TSEntry.SCIENCE with
      | SKY k => exact ⟨k, rfl⟩
      | SCIENCE => rw [hval] at hskyj; cases hskyj
    have htsj : ts[j]? = some (TSEntry.SKY k) := by
      rw [List.getD_eq_getElem?_getD, List.getElem?_eq_some.mpr ⟨hjlen, rfl⟩]
        at hk
      simp only [Option.getD_some] at hk
      rw [List.getElem?_eq_some.mpr ⟨hjlen, rfl⟩, hk]
    have himgk : img = skyFrames.getD k [] := by
      rw [skyImageAtPos, hk] at himg
      exact (Option.some_inj.mp himg).symm
    set n := min idx ts.length - 1 - j with hn
    have hnL : n < min idx ts.length := by omega
    refine ⟨n, k, ?_, himgk, ?_⟩
    · rw [List.getElem?_reverse (by omega), hLtake]
      have hjj : min idx ts.length - 1 - n = j := by omega
      rw [hjj, List.getElem?_take, if_pos (by omega)]
      exact htsj
    · intro m hm
      have hmL : m < min idx ts.length := by omega
      set j' := min idx ts.length - 1 - m with hj'
      have hjj' : j < j' := by omega
      have hj'idx : j' < idx := by omega
      have := hnear j' hjj' hj'idx
      rw [List.getD_eq_getElem?_getD, List.getElem?_reverse (by omega), hLtake]
      rw [skyAtB, List.getD_eq_getElem?_getD] at this
      rw [List.getElem?_take, if_pos (by omega)]
      exact this

theorem no_sky_of_both_none {ts : List TSEntry} {idx : Nat}
    (hafter : ∀ j, idx ≤ j → j < ts.length → skyAtB ts j = false)
    (hbefore : ∀ j, j < idx → skyAtB ts j = false) :
    ts.any isSkyEntry = false := by
  rw [Bool.eq_false_iff]
  intro hany
  rw [List.any_eq_true] at hany
  obtain ⟨e, hmem, he⟩ := hany
  obtain ⟨n, hn, rfl⟩ := List.getElem_of_mem hmem
  have hsky : skyAtB ts n = true := by
    rw [skyAtB, List.getD_eq_getElem?_getD,
      List.getElem?_eq_some.mpr ⟨hn, rfl⟩]
    exact he
  by_cases hcase : n < idx
  · rw [hbefore n hcase] at hsky; cases hsky
  · rw [hafter n (by omega) hn] at hsky; cases hsky

theorem searchForNextSky_spec (skyFrames : List Image) (ts : List TSEntry)
    (idx : Nat) (hsky : ts.any isSkyEntry = true) :
    ∃ img, searchForNextSky skyFrames ts idx = some img ∧
      NextResolvesTo skyFrames ts idx img := by
  rw [searchForNextSky]
  cases hdrop : scanSky skyFrames (ts.drop idx) with
  | some img =>
    exact ⟨img, rfl, Or.inl ((scanSky_drop_some_iff _ _ _ _).mp hdrop)⟩
  | none =>
    have hafter := (scanSky_drop_none_iff skyFrames ts idx).mp hdrop
    cases hrev : scanSky skyFrames ((ts.take idx).reverse) with
    | some img =>
      exact ⟨img, rfl, Or.inr ⟨hafter,
        (scanSky_revtake_some_iff _ _ _ _).mp hrev⟩⟩
    | none =>
      have hbef := (scanSky_revtake_none_iff skyFrames ts idx).mp hrev
      rw [no_sky_of_both_none hafter hbef] at hsky
      cases hsky

theorem searchForPreviousSky_spec (skyFrames : List Image)
    (ts : List TSEntry) (idx : Nat) (hsky : ts.any isSkyEntry = true) :
    ∃ img, searchForPreviousSky skyFrames ts idx = some img ∧
      PrevResolvesTo skyFrames ts idx img := by
  rw [searchForPreviousSky]
  cases hrev : scanSky skyFrames ((ts.take idx).reverse) with
  | some img =>
    exact ⟨img, rfl, Or.inl ((scanSky_revtake_some_iff _ _ _ _).mp hrev)⟩
  | none =>
    have hbef := (scanSky_revtake_none_iff skyFrames ts idx).mp hrev
    cases hdrop : scanSky skyFrames (ts.drop idx) with
    | some img =>
      exact ⟨img, rfl, Or.inr ⟨hbef,
        (scanSky_drop_some_iff _ _ _ _).mp hdrop⟩⟩
    | none =>
      have hafter := (scanSky_drop_none_iff skyFrames ts idx).mp hdrop
      rw [no_sky_of_both_none hafter hbef] at hsky
      cases hsky

/--
C6: with at least one SKY entry present, `calc_sky_frame` in mode "next"
returns the first SKY frame at or after the given position, falling back
to the nearest previous SKY frame when no later one exists; in mode
"previous" it returns the nearest SKY frame before the position, falling
back to the forward scan when none exists; in mode "both" it resolves
previous and next independently (each with its own opposite-direction
fallback) and returns their elementwise average — so with SKY entries on
only one side both resolutions may yield the same frame.
-/
theorem calcSkyFrame_spec (skyFrames : List Image) (ts : List TSEntry)
    (idx : Nat) (hsky : ts.any isSkyEntry = true) :
    (∃ imgN, calcSkyFrame SkyMode.next skyFrames ts idx = some imgN ∧
        NextResolvesTo skyFrames ts idx imgN) ∧
    (∃ imgP, calcSkyFrame SkyMode.previous skyFrames ts idx = some imgP ∧
        PrevResolvesTo skyFrames ts idx imgP) ∧
    (∃ imgP imgN, PrevResolvesTo skyFrames ts idx imgP ∧
        NextResolvesTo skyFrames ts idx imgN ∧
        calcSkyFrame SkyMode.both skyFrames ts idx =
          some ((imAdd imgP imgN).map (fun v => v / 2))) := by
  obtain ⟨imgN, hN, hNres⟩ := searchForNextSky_spec skyFrames ts idx hsky
  obtain ⟨imgP, hP, hPres⟩ := searchForPreviousSky_spec skyFrames ts idx hsky
  refine ⟨⟨imgN, ?_, hNres⟩, ⟨imgP, ?_, hPres⟩, imgP, imgN, hPres, hNres, ?_⟩
  · rw [calcSkyFrame, if_pos hsky]
    exact hN
  · rw [calcSkyFrame, if_pos hsky]
    exact hP
  · rw [calcSkyFrame, if_pos hsky, hP, hN]

/-- Witness for `calcSkyFrame_spec`: a SKY entry surrounded by SCIENCE
entries, looked up from position 1. -/
theorem calcSkyFrame_spec_witness :
    ([TSEntry.SCIENCE, TSEntry.SKY 0, TSEntry.SCIENCE].any isSkyEntry
      = true) ∧
    (∃ imgN, calcSkyFrame SkyMode.next [[(3 : ℚ)]]
        [TSEntry.SCIENCE, TSEntry.SKY 0, TSEntry.SCIENCE] 1 = some imgN ∧
      NextResolvesTo [[(3 : ℚ)]]
        [TSEntry.SCIENCE, TSEntry.SKY 0, TSEntry.SCIENCE] 1 imgN) := by
  refine ⟨by decide, ?_⟩
  exact (calcSkyFrame_spec [[(3 : ℚ)]]
    [TSEntry.SCIENCE, TSEntry.SKY 0, TSEntry.SCIENCE] 1 (by decide)).1

/-!
## Mode validation at construction (C7)

`NoddingBackgroundModule.__init__` (BackgroundSubtraction.py lines
1011-1014) raises a `ValueError` for a mode outside
`{"next", "previous", "both"}`; `SkySubtraction.__init__`
(SkyScienceDataModules.py lines 85-88) instead silently falls back to
`"next"`.
-/

/-- Mode handling of `NoddingBackgroundModule.__init__`. -/
def noddingModeInit (mode : String) : Except String String :=
  if mode = "next" ∨ mode = "previous" ∨ mode = "both" then Except.ok mode
  else Except.error "Mode needs to be next, previous or both."

/-- Mode handling of `SkySubtraction.__init__`: the `else` branch assigns
`self.m_mode = "next"` instead of raising. -/
def skySubtractionModeInit (mode : String) : String :=
  if mode = "next" ∨ mode = "previous" ∨ mode = "both" then mode else "next"

/--
C7 counterexample: constructing `SkySubtraction` with the invalid mode
string "invalid" raises nothing — the mode is silently replaced by
"next" — contradicting the claim that every nodding/sky
background-subtraction module raises a configuration error at
construction time with no default silently substituted.
(`NoddingBackgroundModule` does raise.)
-/
theorem modeInit_counterexample :
    skySubtractionModeInit "invalid" = "next" ∧
    noddingModeInit "invalid" =
      Except.error "Mode needs to be next, previous or both." := by
  constructor
  · rfl
  · rfl

/--
C7 (amended): for every mode string outside `{"next", "previous",
"both"}`, `NoddingBackgroundModule.__init__` raises a `ValueError` at
construction time, while `SkySubtraction.__init__` silently substitutes
the default mode "next".
-/
theorem modeInit_spec (mode : String)
    (h : ¬(mode = "next" ∨ mode = "previous" ∨ mode = "both")) :
    noddingModeInit mode =
        Except.error "Mode needs to be next, previous or both." ∧
    skySubtractionModeInit mode = "next" := by
  constructor
  · rw [noddingModeInit, if_neg h]
  · rw [skySubtractionModeInit, if_neg h]

/-- Witness for `modeInit_spec` at the invalid mode "all". -/
theorem modeInit_spec_witness :
    (¬(("all" : String) = "next" ∨ ("all" : String) = "previous" ∨
        ("all" : String) = "both")) ∧
    noddingModeInit "all" =
        Except.error "Mode needs to be next, previous or both." ∧
    skySubtractionModeInit "all" = "next" := by
  refine ⟨by decide, ?_⟩
  exact modeInit_spec "all" (by decide)

/-!
## MeanBackgroundSubtractionModule, scalar `star_pos_shift` (C8)
(BackgroundSubtraction.py lines 58-222, the non-ndarray branch)

With an explicit integer `star_pos_shift = S`, line 74-77 checks
`number_of_frames < S*2.0` and raises a `ValueError` before anything is
written; only after the check does the run write to the output port.
This is Python 2, so `int(np.ceil(n / S)) = n // S` (integer division)
and `top = n // S - 2`.  Slice bounds such as `(top-1)*S` can be
negative, hence `pyslice` over `ℤ`.
-/

/-- `np.mean(frames[a:b], axis=0)` over a Python slice (an empty slice
yields numpy NaNs, here the junk image of `imMean []`). -/
def sliceMean (frames : List Image) (a b : ℤ) : Image :=
  imMean (pyslice frames a b)

/-- The frames written by the scalar branch of
`MeanBackgroundSubtractionModule.run` after the size check: frame 0, the
rest of the first block (both minus the mean of block 1), the interior
blocks (minus the average of the previous and next block means), the
next-to-last block and the last (possibly oversized) block. -/
def meanBGOutputScalar (S : Nat) (frames : List Image) : List Image :=
  let n : ℤ := frames.length
  let sZ : ℤ := S
  let tmpMean := sliceMean frames sZ (2 * sZ)
  let top : ℤ := (frames.length / S : Nat) - 2
  let first := [imSub (frames.getD 0 []) tmpMean]
  let firstStack := (pyslice frames 1 sZ).map (fun f => imSub f tmpMean)
  let middle := (List.range' 1 (top - 1).toNat).flatMap (fun i =>
    let mNext := sliceMean frames (((i : ℤ) + 1) * sZ) (((i : ℤ) + 2) * sZ)
    let mPrev := sliceMean frames (((i : ℤ) - 1) * sZ) ((i : ℤ) * sZ)
    let m := (imAdd mNext mPrev).map (fun v => v / 2)
    (pyslice frames ((i : ℤ) * sZ) (((i : ℤ) + 1) * sZ)).map
      (fun f => imSub f m))
  let oneBefore :=
    let mPrev := sliceMean frames ((top - 1) * sZ) (top * sZ)
    let mNext := sliceMean frames ((top + 1) * sZ) n
    let m := (imAdd mPrev mNext).map (fun v => v / 2)
    (pyslice frames (top * sZ) ((top + 1) * sZ)).map (fun f => imSub f m)
  let lastBlk :=
    let mPrev := sliceMean frames (top * sZ) ((top + 1) * sZ)
    (pyslice frames ((top + 1) * sZ) n).map (fun f => imSub f mPrev)
  first ++ firstStack ++ middle ++ oneBefore ++ lastBlk

/-- Scalar branch of `MeanBackgroundSubtractionModule.run`: the frame
count check of lines 73-77 raises before any output frame is written
(the `Except.error` result carries no output); afterwards the run writes
`meanBGOutputScalar`.  (Python would raise a `ZeroDivisionError` later
for `S = 0`; the theorems assume `0 < S`.) -/
def runMeanBGScalar (S : Nat) (frames : List Image) :
    Except String (List Image) :=
  if frames.length < 2 * S then
    Except.error "The input stack is to small for mean background subtraction."
  else Except.ok (meanBGOutputScalar S frames)

/--
C8: with an explicit scalar `star_pos_shift = S > 0`, the run raises a
`ValueError` exactly when the frame count is below `2*S`, and the error
is produced before any output frame is written (the error result carries
no frames); with at least `2*S` frames no such error is raised and the
run produces output.
-/
theorem meanBG_check (S : Nat) (frames : List Image) (hS : 0 < S) :
    (frames.length < 2 * S →
      runMeanBGScalar S frames = Except.error
        "The input stack is to small for mean background subtraction.") ∧
    (2 * S ≤ frames.length →
      runMeanBGScalar S frames = Except.ok (meanBGOutputScalar S frames)) := by
  constructor
  · intro h
    rw [runMeanBGScalar, if_pos h]
  · intro h
    rw [runMeanBGScalar, if_neg (by omega)]

/-- Witness for `meanBG_check` with `S = 2`: three frames raise, four
frames succeed. -/
theorem meanBG_check_witness :
    runMeanBGScalar 2 [[(1 : ℚ)], [2], [3]] = Except.error
      "The input stack is to small for mean background subtraction." ∧
    runMeanBGScalar 2 [[(1 : ℚ)], [2], [3], [4]] =
      Except.ok (meanBGOutputScalar 2 [[(1 : ℚ)], [2], [3], [4]]) := by
  constructor
  · exact (meanBG_check 2 [[(1 : ℚ)], [2], [3]] (by norm_num)).1 (by norm_num)
  · exact (meanBG_check 2 [[(1 : ℚ)], [2], [3], [4]] (by norm_num)).2
      (by norm_num)

/-!
## SimplexMinimizationModule._objective (C9)
(FluxAndPosition.py lines 325-454)

Each objective evaluation injects a negative fake planet, runs the
external PSF-subtraction collaborator and reads back exactly one mean
residual image, appends that residual to `res_out_tag`, computes the
merit on a crop of it, and appends one six-component trial record to
`flux_position_tag`.  The numerical collaborators (trigonometry, square
root, arc tangent, the full fake-planet + PSF-subtraction sub-pipeline
and the crop/Hessian merit) are external floating-point collaborators,
passed in as functions.
-/

/-- `_rotate(center, position, angle)` (lines 316-323), with the cosine
and sine of the angle in degrees supplied by the math library. -/
def rotatePos (cosD sinD : ℚ → ℚ) (center position : ℚ × ℚ)
    (angle : ℚ) : ℚ × ℚ :=
  let px := (position.1 - center.1) * cosD angle -
    (position.2 - center.2) * sinD angle
  let py := (position.1 - center.1) * sinD angle +
    (position.2 - center.2) * cosD angle
  (center.1 + px, center.2 + py)

/-- Python float `%` (result has the sign of the divisor):
`a % b = a - b * floor(a / b)`. -/
def qmod (a b : ℚ) : ℚ := a - b * (⌊a / b⌋ : ℤ)

/-- Contents of the two output ports of the minimization:
`res_out_tag` (residual images) and `flux_position_tag` (trial
records). -/
structure SimplexState where
  residuals : List Image
  records : List (List ℚ)

/-- External collaborators of one objective evaluation. -/
structure ObjectiveEnv where
  cosD : ℚ → ℚ
  sinD : ℚ → ℚ
  sqrtQ : ℚ → ℚ
  atan2D : ℚ → ℚ → ℚ
  psfSub : ℚ × ℚ × ℚ → Image
  meritOf : Image → ℚ

/-- Fixed configuration of the objective. -/
structure ObjectiveCfg where
  center : ℚ × ℚ
  pixscale : ℚ
  extraRot : ℚ

/-- The six-component trial record appended by one evaluation (lines
443-452): rotated-back x and y positions, separation,
`(ang - extra_rot) % 360`, magnitude, merit value. -/
def trialRecord (env : ObjectiveEnv) (cfg : ObjectiveCfg)
    (arg : ℚ × ℚ × ℚ) : List ℚ :=
  let posX := arg.1
  let posY := arg.2.1
  let mag := arg.2.2
  let sep := env.sqrtQ ((posY - cfg.center.1) ^ 2 +
    (posX - cfg.center.2) ^ 2) * cfg.pixscale
  let ang := env.atan2D (posY - cfg.center.1) (posX - cfg.center.2) - 90
  let merit := env.meritOf (env.psfSub arg)
  let position := rotatePos env.cosD env.sinD cfg.center (posX, posY)
    (-cfg.extraRot)
  [position.1, position.2, sep, qmod (ang - cfg.extraRot) 360, mag, merit]

/-- One evaluation of `_objective`: append the single mean residual of
the sub-pipeline to the residual port (line 403), then append the trial
record to the flux-position port (line 452). -/
def objectiveStep (env : ObjectiveEnv) (cfg : ObjectiveCfg)
    (st : SimplexState) (arg : ℚ × ℚ × ℚ) : SimplexState :=
  { residuals := st.residuals ++ [env.psfSub arg],
    records := st.records ++ [trialRecord env cfg arg] }

/-- The evaluations performed over the optimizer's trial sequence; both
output ports start empty (`del_all_data`, lines 456-460). -/
def runObjective (env : ObjectiveEnv) (cfg : ObjectiveCfg)
    (trials : List (ℚ × ℚ × ℚ)) : SimplexState :=
  trials.foldl (objectiveStep env cfg) ⟨[], []⟩

theorem runObjective_eq (env : ObjectiveEnv) (cfg : ObjectiveCfg)
    (trials : List (ℚ × ℚ × ℚ)) :
    runObjective env cfg trials =
      ⟨trials.map env.psfSub, trials.map (trialRecord env cfg)⟩ := by
  have hgen : ∀ (ts : List (ℚ × ℚ × ℚ)) (st : SimplexState),
      ts.foldl (objectiveStep env cfg) st =
        ⟨st.residuals ++ ts.map env.psfSub,
          st.records ++ ts.map (trialRecord env cfg)⟩ := by
    intro ts
    induction ts with
    | nil => intro st; simp
    | cons t ts ih =>
      intro st
      rw [List.foldl_cons, ih]
      simp [objectiveStep]
  rw [runObjective, hgen]
  simp

/--
C9: every evaluation of the objective function appends exactly one
residual image to the residual output and exactly one six-component
trial record (rotated-back x, rotated-back y, separation,
`(angle - extra_rot) mod 360`, magnitude, merit) to the flux-position
output; both ports grow append-only in evaluation order, and the last
appended record (the reported best-fit result) is the record of the
final evaluation.
-/
theorem objective_append_invariant (env : ObjectiveEnv)
    (cfg : ObjectiveCfg) (trials : List (ℚ × ℚ × ℚ)) :
    (runObjective env cfg trials).residuals.length = trials.length ∧
    (runObjective env cfg trials).records.length = trials.length ∧
    (∀ t, (runObjective env cfg (trials ++ [t])).residuals =
        (runObjective env cfg trials).residuals ++ [env.psfSub t] ∧
      (runObjective env cfg (trials ++ [t])).records =
        (runObjective env cfg trials).records ++ [trialRecord env cfg t]) ∧
    (runObjective env cfg trials).records.getLast? =
      trials.getLast?.map (trialRecord env cfg) ∧
    (runObjective env cfg trials).residuals.getLast? =
      trials.getLast?.map (fun t => env.psfSub t) := by
  refine ⟨?_, ?_, ?_, ?_, ?_⟩
  · rw [runObjective_eq]; simp
  · rw [runObjective_eq]; simp
  · intro t
    rw [runObjective_eq, runObjective_eq]
    simp
  · rw [runObjective_eq]
    simp [List.getLast?_map]
  · rw [runObjective_eq]
    simp [List.getLast?_map]

/-!
## FakePlanetModule.run (C2)
(FluxAndPosition.py lines 80-192; here the 3-D PSF branch with
`n_psf == n_image`)

The claim says the output frame is the *science* input frame plus the
scaled shifted PSF.  Line 156 reads the per-chunk base images from the
PSF port (`image = self.m_psf_in_port[im_stacks[j]:im_stacks[j+1]]`),
not the science port, so whenever `psf_in_tag != image_in_tag` the
planet is added on top of the PSF frames and the science frames are
never read.
-/

/-- The chunk boundaries `im_stacks` (lines 128-132); Python 2 makes
`n_stack_im = int(float(n)/float(memory)) = n // memory`. -/
def imStacks (nImage memory : Nat) : List Nat :=
  let nStack := nImage / memory
  let base := (List.range (nStack + 1)).map (fun i => i * memory)
  if nStack * memory ≠ nImage then base ++ [nImage] else base

/-- `FakePlanetModule.run` for a 3-D science input and a 3-D PSF cube of
matching length.  External collaborators: `cosF`/`sinF` (`math.cos`,
`math.sin`), `shiftF` (`scipy.ndimage.shift`, order 5, reflect), the
precomputed flux ratio `10^(-magnitude/2.5)`, `radial = separation /
pixscale`, `theta = angle*π/180 + π/2`, and the parallactic angles in
radians.  The base image of each chunk is read from the PSF port (line
156), reproducing the source. -/
def runFakePlanet (science psf : List Image) (parangRad : List ℚ)
    (memory : Nat) (psfScaling fluxRatio radial theta : ℚ)
    (cosF sinF : ℚ → ℚ) (shiftF : Image → ℚ × ℚ → Image) : List Image :=
  let n := science.length
  let bounds := imStacks n memory
  (List.range (bounds.length - 1)).flatMap (fun j =>
    let chunk := pyslice psf (bounds.getD j 0 : Nat) (bounds.getD (j + 1) 0 : Nat)
    (List.range chunk.length).map (fun i =>
      let g := j * memory + i
      let xShift := radial * cosF (theta - parangRad.getD g 0)
      let yShift := radial * sinF (theta - parangRad.getD g 0)
      let psfTmp := psf.getD g []
      imAdd (chunk.getD i [])
        (imSMul (psfScaling * fluxRatio) (shiftF psfTmp (yShift, xShift)))))

/-- The output the claim describes: science frame `i` plus
`psf_scaling * 10^(-magnitude/2.5)` times the PSF shifted by the
frame's rotated offset. -/
def claimFakePlanet (science psf : List Image) (parangRad : List ℚ)
    (psfScaling fluxRatio radial theta : ℚ) (cosF sinF : ℚ → ℚ)
    (shiftF : Image → ℚ × ℚ → Image) : List Image :=
  (List.range science.length).map (fun g =>
    let xShift := radial * cosF (theta - parangRad.getD g 0)
    let yShift := radial * sinF (theta - parangRad.getD g 0)
    imAdd (science.getD g [])
      (imSMul (psfScaling * fluxRatio) (shiftF (psf.getD g []) (yShift, xShift))))

/--
C2 failing input: one science frame `[[1]]`, PSF cube `[[0]]`, zero
separation (shift is the identity), magnitude 0 (flux ratio exactly 1),
`psf_scaling = 1`, `memory = 1`.  The claim requires the output frame
`[1] + 1*1*[0] = [1]`; the code produces `[0] + 1*1*[0] = [0]` because
line 156 reads the base chunk from the PSF port instead of the science
port.
-/
theorem fakePlanet_failing_input :
    runFakePlanet [[(1 : ℚ)]] [[(0 : ℚ)]] [0] 1 1 1 0 0
        (fun _ => 1) (fun _ => 0) (fun im _ => im) = [[0]] ∧
    claimFakePlanet [[(1 : ℚ)]] [[(0 : ℚ)]] [0] 1 1 0 0
        (fun _ => 1) (fun _ => 0) (fun im _ => im) = [[1]] ∧
    runFakePlanet [[(1 : ℚ)]] [[(0 : ℚ)]] [0] 1 1 1 0 0
        (fun _ => 1) (fun _ => 0) (fun im _ => im) ≠
      claimFakePlanet [[(1 : ℚ)]] [[(0 : ℚ)]] [0] 1 1 0 0
        (fun _ => 1) (fun _ => 0) (fun im _ => im) := by
  have h1 : runFakePlanet [[(1 : ℚ)]] [[(0 : ℚ)]] [0] 1 1 1 0 0
      (fun _ => 1) (fun _ => 0) (fun im _ => im) = [[0]] := by
    simp [runFakePlanet, imStacks, pyslice, imAdd, imSMul, List.range_succ]
  have h2 : claimFakePlanet [[(1 : ℚ)]] [[(0 : ℚ)]] [0] 1 1 0 0
      (fun _ => 1) (fun _ => 0) (fun im _ => im) = [[1]] := by
    simp [claimFakePlanet, imAdd, imSMul, List.range_succ]
  refine ⟨h1, h2, ?_⟩
  rw [h1, h2]
  intro h
  have := congrArg (fun l => (List.getD (List.getD l 0 []) 0 (5 : ℚ))) h
  norm_num at this

/-!
## PCABackgroundSubtractionModule._create_mask, "mean" policy (C4)
(BackgroundSubtraction.py lines 543-563)

`star_position` is an `(n_frames, 2)` array of per-frame star positions.
The "mean" branch computes `cent_x = int(np.mean(star_position[0]))` and
`cent_y = int(np.mean(star_position[1]))`: the means of the first and the
second *row* — i.e. of frame 0's `(x, y)` pair and frame 1's `(x, y)`
pair — not the column means over all frames that the claim (and the
"exact" branch, which uses `star_position[:, 0]`) intends.  `meshgrid`
makes the mask entry at row `a`, column `b` use `(b - cent_x, a -
cent_y)`; the `sqrt < radius` comparison is expressed on squares (both
sides nonnegative).
-/

/-- Python `int()`: truncation toward zero. -/
def pyint (q : ℚ) : ℤ := if q < 0 then -(⌊-q⌋) else ⌊q⌋

/-- Value of the `_create_mask` "mean" mask at pixel (row `a`, column
`b`), as the code computes it. -/
def maskMeanAt (maskRadius : ℚ) (starPosition : List (ℚ × ℚ))
    (a b : Nat) : ℚ :=
  let row0 := starPosition.getD 0 (0, 0)
  let row1 := starPosition.getD 1 (0, 0)
  let centX : ℤ := pyint ((row0.1 + row0.2) / 2)
  let centY : ℤ := pyint ((row1.1 + row1.2) / 2)
  if ((b : ℚ) - (centX : ℚ)) ^ 2 + ((a : ℚ) - (centY : ℚ)) ^ 2 <
      maskRadius ^ 2 then 0 else 1

/-- The mask the claim describes: 0 exactly at pixels whose distance
from the mean of all recorded per-frame star positions is less than the
exclusion radius, 1 elsewhere. -/
def claimMaskMeanAt (maskRadius : ℚ) (starPosition : List (ℚ × ℚ))
    (a b : Nat) : ℚ :=
  let n := starPosition.length
  let centX : ℚ := (starPosition.map Prod.fst).sum / n
  let centY : ℚ := (starPosition.map Prod.snd).sum / n
  if ((b : ℚ) - centX) ^ 2 + ((a : ℚ) - centY) ^ 2 < maskRadius ^ 2
  then 0 else 1

/--
C4 failing input: two recorded star positions `(10, 20)` and `(30, 40)`
with exclusion radius 2 pixels.  The mean star position is `(20, 30)`,
but the code centers the mask at `(int(mean(10, 20)), int(mean(30,
40)))` = `(15, 35)`: the pixel at row 35, column 15 is masked (0) by the
code although it lies at distance `sqrt(50) > 2` from the mean star
position, where the claim requires 1.
-/
theorem maskMean_failing_input :
    maskMeanAt 2 [(10, 20), (30, 40)] 35 15 = 0 ∧
    claimMaskMeanAt 2 [(10, 20), (30, 40)] 35 15 = 1 := by
  constructor
  · simp [maskMeanAt, pyint]
    norm_num
  · simp [claimMaskMeanAt]
    norm_num

end PynPoint
